import Mathlib

/-!
Verification of the ordered-key arithmetic and range-partitioning kernel of
`data_diff/utils.py`: the range splitter `split_space`, the alphanumeric
base-65 codec, the `ArithUUID` and `ArithAlphanumeric` key types, the
product-order `Vector`, and the `CaseInsensitiveDict` name map.

Python integers are modelled as `Int`/`Nat`; fallible operations (Python
exceptions) return `Option`/`Except`.
-/

set_option maxHeartbeats 1000000

/-! ## Range splitter (`split_space` and Python's builtin `range`) -/

/-- Number of elements of Python's `range(start, stop, step)` for a positive
`step` (the only case `split_space` exercises: its step is always ≥ 1). -/
def pyRangeLen (start stop step : Int) : Nat :=
  if 0 < step then ((stop - start + step - 1).fdiv step).toNat else 0

/-- Python's builtin `range(start, stop, step)` as a list, for positive `step`:
`[start, start + step, start + 2*step, ...)`, all strictly below `stop`. -/
def pyRange (start stop step : Int) : List Int :=
  (List.range (pyRangeLen start stop step)).map (fun (i : Nat) => start + step * (i : Int))

/-- `split_space(start, end, count)` from `data_diff/utils.py`:
`size = end - start`; `assert count <= size` (modelled as `none`);
`return list(range(start, end, (size + 1) // (count + 1)))[1 : count + 1]`.
Python `//` on the nonnegative operands occurring here is `Int.fdiv`. -/
def split_space (start end_ : Int) (count : Nat) : Option (List Int) :=
  if (count : Int) ≤ end_ - start then
    some ((((pyRange start end_ ((end_ - start + 1).fdiv ((count : Int) + 1)))).drop 1).take count)
  else
    none

/-- Claim C2: `split_space` fails (the failed `assert`) if and only if
`count > end - start`; whenever `count ≤ end - start` it returns normally. -/
theorem split_space_fails_iff (start end_ : Int) (count : Nat) :
    split_space start end_ count = none ↔ end_ - start < (count : Int) := by
  rcases le_or_lt (count : Int) (end_ - start) with h | h
  · simp [split_space, h, not_lt.mpr h]
  · simp [split_space, not_le.mpr h, h]

/-- Claim C3: `split_space 0 10 3` returns exactly `[2, 4, 6]`
(step `= ⌊11/4⌋ = 2`, checkpoints `0+2, 0+4, 0+6`). -/
theorem split_space_0_10_3 : split_space 0 10 3 = some [2, 4, 6] := by decide

/-- `Int.fdiv` on casts of natural numbers is natural division. -/
theorem natCast_fdiv (a b : Nat) : ((a : Int)).fdiv ((b : Int)) = ((a / b : Nat) : Int) := by
  rw [Int.fdiv_eq_ediv _ (by positivity)]
  exact (Int.ofNat_ediv a b).symm

/-- Claim C1 (amended): for integers `start < end` and `0 ≤ count ≤ end - start - 1`,
`split_space start end count` returns exactly `count` strictly increasing integers,
all strictly between `start` and `end`.  (At `count = end - start`, allowed by the
original claim, the code returns only `count - 1` checkpoints; see the
counterexample.) -/
theorem split_space_checkpoints (start end_ : Int) (count : Nat)
    (h1 : start < end_) (h2 : (count : Int) < end_ - start) :
    ∃ l, split_space start end_ count = some l ∧ l.length = count ∧
      l.Pairwise (· < ·) ∧ ∀ x ∈ l, start < x ∧ x < end_ := by
  obtain ⟨S, hS⟩ : ∃ S : Nat, end_ - start = (S : Int) := ⟨(end_ - start).toNat, by omega⟩
  have hcS : count < S := by omega
  set stepN : Nat := (S + 1) / (count + 1) with hstep
  have hstep1 : 1 ≤ stepN := (Nat.one_le_div_iff (by omega)).mpr (by omega)
  have hsm : stepN * count + stepN ≤ S + 1 := by
    have h := Nat.div_mul_le_self (S + 1) (count + 1)
    calc stepN * count + stepN = stepN * (count + 1) := by ring
    _ ≤ S + 1 := h
  have hkey : stepN * count + 1 ≤ S := by
    rcases eq_or_lt_of_le hstep1 with hs | hs
    · rw [← hs, Nat.one_mul]
      omega
    · obtain ⟨P, hP⟩ : ∃ P, stepN * count = P := ⟨_, rfl⟩
      rw [hP] at hsm ⊢
      omega
  have hNge : count + 1 ≤ (S + stepN - 1) / stepN := by
    apply (Nat.le_div_iff_mul_le (show 0 < stepN by omega)).mpr
    have hrw : (count + 1) * stepN = stepN * count + stepN := by ring
    rw [hrw]
    obtain ⟨P, hP⟩ : ∃ P, stepN * count = P := ⟨_, rfl⟩
    rw [hP] at hkey ⊢
    omega
  have hguard : (count : Int) ≤ end_ - start := by omega
  have hstepcast : (end_ - start + 1).fdiv ((count : Int) + 1) = (stepN : Int) := by
    rw [hS]
    have hc1 : ((S : Int) + 1) = ((S + 1 : Nat) : Int) := by push_cast; ring
    have hc2 : ((count : Int) + 1) = ((count + 1 : Nat) : Int) := by push_cast; ring
    rw [hc1, hc2, natCast_fdiv]
  have hlen : pyRangeLen start end_ (stepN : Int) = (S + stepN - 1) / stepN := by
    unfold pyRangeLen
    rw [if_pos (show (0 : Int) < (stepN : Int) by exact_mod_cast hstep1)]
    have hc3 : end_ - start + (stepN : Int) - 1 = ((S + stepN - 1 : Nat) : Int) := by
      rw [hS]; omega
    rw [hc3, natCast_fdiv, Int.toNat_ofNat]
  obtain ⟨M, hM⟩ : ∃ M, (S + stepN - 1) / stepN = M + 1 :=
    ⟨(S + stepN - 1) / stepN - 1, by omega⟩
  have hlist : split_space start end_ count
      = some (((((List.range ((S + stepN - 1) / stepN)).drop 1).take count)).map
          (fun (i : Nat) => start + (stepN : Int) * (i : Int))) := by
    unfold split_space
    rw [if_pos hguard, hstepcast]
    unfold pyRange
    rw [hlen, ← List.map_drop, ← List.map_take]
  have hidx : ((List.range ((S + stepN - 1) / stepN)).drop 1).take count
      = List.map Nat.succ (List.range count) := by
    rw [hM, List.range_succ_eq_map, List.drop_succ_cons, List.drop_zero,
      ← List.map_take, List.take_range, Nat.min_eq_left (by omega)]
  have hfun : ((fun (i : Nat) => start + (stepN : Int) * (i : Int)) ∘ Nat.succ)
      = fun i : Nat => start + (stepN : Int) * ((i : Int) + 1) := by
    funext i
    simp only [Function.comp]
    push_cast
    ring
  refine ⟨(List.range count).map (fun i : Nat => start + (stepN : Int) * ((i : Int) + 1)),
    ?_, ?_, ?_, ?_⟩
  · rw [hlist, hidx, List.map_map, hfun]
  · simp
  · refine List.pairwise_map.mpr ?_
    refine List.Pairwise.imp ?_ (List.pairwise_lt_range count)
    intro a b hab
    have hpos : (0 : Int) < (stepN : Int) := by exact_mod_cast hstep1
    have hlt : (a : Int) + 1 < (b : Int) + 1 := by exact_mod_cast Nat.succ_lt_succ hab
    exact add_lt_add_left (mul_lt_mul_of_pos_left hlt hpos) start
  · intro x hx
    simp only [List.mem_map, List.mem_range] at hx
    obtain ⟨i, hi, rfl⟩ := hx
    have hpos : (0 : Int) < (stepN : Int) := by exact_mod_cast hstep1
    have hipos : (0 : Int) < (i : Int) + 1 := by positivity
    constructor
    · linarith [mul_pos hpos hipos]
    · have hmul : stepN * (i + 1) ≤ stepN * count := Nat.mul_le_mul_left stepN (by omega)
      have hfin : stepN * (i + 1) + 1 ≤ S := by linarith [hmul, hkey]
      have hx2 : (stepN : Int) * ((i : Int) + 1) + 1 ≤ (S : Int) := by exact_mod_cast hfin
      linarith [hx2, hS.symm.le, hS.le]

/-- Claim C1 witness: `split_space 0 10 3` yields three strictly increasing
checkpoints strictly between `0` and `10`. -/
theorem split_space_checkpoints_witness :
    ∃ l, split_space 0 10 3 = some l ∧ l.length = 3 ∧
      l.Pairwise (· < ·) ∧ ∀ x ∈ l, (0 : Int) < x ∧ x < 10 :=
  split_space_checkpoints 0 10 3 (by decide) (by decide)

/-- Claim C1 counterexample: at `count = end - start` (permitted by the claim's
bound `count ≤ end - start`), `split_space 0 1 1` returns the empty list, not a
list of `1` checkpoint. -/
theorem split_space_full_count_cex :
    split_space 0 1 1 = some [] ∧ ([] : List Int).length ≠ 1 := by decide

/-! ## Alphabet / base codec -/

/-- The 65-symbol alphabet of `utils.py`:
`alphanums = " -" + string.digits + string.ascii_uppercase + "_" + string.ascii_lowercase`. -/
def alphanums : List Char :=
  " -0123456789ABCDEFGHIJKLMNOPQRSTUVWXYZ_abcdefghijklmnopqrstuvwxyz".toList

/-- Fuel-indexed form of the digit loop of `numberToAlphanum`, structurally
recursive so that concrete inputs evaluate.  One unit of fuel per iteration of
`while num > 0: num, remainder = divmod(num, len(base)); digits.append(remainder)`. -/
def toDigitsRevGo (b : Nat) : Nat → Nat → List Nat
  | 0, _ => []
  | _ + 1, 0 => []
  | fuel + 1, num + 1 => ((num + 1) % b) :: toDigitsRevGo b fuel ((num + 1) / b)

/-- The base-`b` digits of `num`, least significant first.  Since each loop
iteration strictly decreases `num` (for `b ≥ 2`), `num` itself is enough fuel. -/
def toDigitsRev (num b : Nat) : List Nat := toDigitsRevGo b num num

/-- `numberToAlphanum(num, base)`: the digits of `num` in base `len(base)`,
most significant first (`digits[::-1]`), rendered through `base`.  The Python
indexing `base[i]` is modelled by `List.getD` (the index is always in range). -/
def numberToAlphanum (num : Nat) (base : List Char) : List Char :=
  ((toDigitsRev num base.length).reverse).map (fun i => base.getD i ' ')

/-- Python's `base.index(c)`: position of the first occurrence of `c` in `base`,
`none` (Python's `ValueError`) when `c` does not occur. -/
def pyIndex (base : List Char) (c : Char) : Option Nat :=
  match base with
  | [] => none
  | b :: rest => if b = c then some 0 else (pyIndex rest c).map (· + 1)

/-- The accumulator loop of `alphanumToNumber`:
`num = num * len(base) + base.index(c)` over the characters left to right. -/
def alphanumToNumberAux (base : List Char) (num : Nat) : List Char → Option Nat
  | [] => some num
  | c :: rest =>
    (pyIndex base c).bind (fun i => alphanumToNumberAux base (num * base.length + i) rest)

/-- `alphanumToNumber(alphanum, base)`; `none` models the `ValueError` raised by
`base.index` on a character outside the alphabet. -/
def alphanumToNumber (s : List Char) (base : List Char) : Option Nat :=
  alphanumToNumberAux base 0 s

theorem alphanums_length : alphanums.length = 65 := by decide

theorem pyIndex_getD : ∀ i < 65, pyIndex alphanums (alphanums.getD i ' ') = some i := by
  decide

theorem toDigitsRevGo_lt (b : Nat) (hb : 0 < b) :
    ∀ fuel num, ∀ d ∈ toDigitsRevGo b fuel num, d < b := by
  intro fuel
  induction fuel with
  | zero => intro num d hd; simp [toDigitsRevGo] at hd
  | succ fuel ih =>
    intro num d hd
    cases num with
    | zero => simp [toDigitsRevGo] at hd
    | succ m =>
      simp only [toDigitsRevGo] at hd
      rcases List.mem_cons.mp hd with rfl | hd
      · exact Nat.mod_lt _ hb
      · exact ih _ d hd

theorem toDigitsRev_lt (num b : Nat) (hb : 0 < b) : ∀ d ∈ toDigitsRev num b, d < b :=
  toDigitsRevGo_lt b hb num num

/-- Reassemble a least-significant-first digit list in base 65. -/
def ofDigitsRev : List Nat → Nat
  | [] => 0
  | d :: ds => d + 65 * ofDigitsRev ds

theorem ofDigitsRev_toDigitsRevGo :
    ∀ fuel num, num ≤ fuel → ofDigitsRev (toDigitsRevGo 65 fuel num) = num := by
  intro fuel
  induction fuel with
  | zero =>
    intro num h
    have : num = 0 := by omega
    subst this
    rfl
  | succ fuel ih =>
    intro num h
    cases num with
    | zero => rfl
    | succ m =>
      simp only [toDigitsRevGo, ofDigitsRev]
      have hdiv : (m + 1) / 65 ≤ fuel := by
        have := Nat.div_lt_self (Nat.succ_pos m) (show 1 < 65 by norm_num)
        omega
      rw [ih ((m + 1) / 65) hdiv]
      exact Nat.mod_add_div (m + 1) 65

theorem ofDigitsRev_toDigitsRev (num : Nat) : ofDigitsRev (toDigitsRev num 65) = num :=
  ofDigitsRev_toDigitsRevGo num num le_rfl

theorem alphanumToNumberAux_map (digits : List Nat) :
    ∀ acc : Nat, (∀ d ∈ digits, d < 65) →
      alphanumToNumberAux alphanums acc (digits.map (fun i => alphanums.getD i ' '))
        = some (digits.foldl (fun n d => n * 65 + d) acc) := by
  induction digits with
  | nil => intro acc _; rfl
  | cons d ds ih =>
    intro acc hd
    simp only [List.map_cons, List.foldl_cons, alphanumToNumberAux]
    rw [pyIndex_getD d (hd d (List.mem_cons_self d ds)), alphanums_length]
    simp only [Option.some_bind]
    exact ih (acc * 65 + d) (fun x hx => hd x (List.mem_cons_of_mem d hx))

theorem foldl_reverse_ofDigitsRev (l : List Nat) :
    l.reverse.foldl (fun n d => n * 65 + d) 0 = ofDigitsRev l := by
  induction l with
  | nil => rfl
  | cons d ds ih =>
    rw [List.reverse_cons, List.foldl_append, ih]
    simp only [List.foldl_cons, List.foldl_nil, ofDigitsRev]
    ring

theorem alphanumToNumber_numberToAlphanum (num : Nat) :
    alphanumToNumber (numberToAlphanum num alphanums) alphanums = some num := by
  unfold alphanumToNumber numberToAlphanum
  rw [alphanums_length]
  rw [alphanumToNumberAux_map _ 0
    (fun d hd => toDigitsRev_lt num 65 (by norm_num) d (List.mem_reverse.mp hd))]
  rw [foldl_reverse_ofDigitsRev, ofDigitsRev_toDigitsRev]

/-- Claim C5: the codec round trip preserves the numeric value: for every
nonnegative integer `n`, `decode (encode n) = n`, and consequently for every
string `s`, `decode (encode (decode s)) = decode s` whenever `decode s` is
defined (stated with `Option.bind`, so a `decode` failure passes through). -/
theorem codec_roundtrip :
    (∀ num : Nat, alphanumToNumber (numberToAlphanum num alphanums) alphanums = some num) ∧
    (∀ s : List Char,
      (alphanumToNumber s alphanums).bind
          (fun v => alphanumToNumber (numberToAlphanum v alphanums) alphanums)
        = alphanumToNumber s alphanums) := by
  refine ⟨alphanumToNumber_numberToAlphanum, fun s => ?_⟩
  cases h : alphanumToNumber s alphanums with
  | none => rfl
  | some v => simp [alphanumToNumber_numberToAlphanum v]

/-! ## ArithUUID -/

/-- The valid range of a UUID integer: `uuid.UUID(int=v)` requires
`0 <= v < 2^128`. -/
def uuidRange : Nat := 2 ^ 128

/-- Python's `uuid.UUID` reduced to its 128-bit integer value. -/
structure UUID where
  val : Nat
  isLt : val < uuidRange

/-- `UUID(int=v)`; `none` models the `ValueError` raised on an out-of-range
integer.  This converter runs on every construction, including the
`attrs.evolve` copies made by `ArithUUID.__add__`/`__sub__`. -/
def uuidFromInt (v : Int) : Option UUID :=
  if h : 0 ≤ v ∧ v < (uuidRange : Int) then some ⟨v.toNat, by omega⟩ else none

/-- `ArithUUID`: a UUID with two case-display flags that take no part in
arithmetic or comparison. -/
structure ArithUUID where
  uuid : UUID
  lowercase : Option Bool := none
  uppercase : Option Bool := none

/-- `ArithUUID.__add__(int)`: `attrs.evolve(self, uuid=self.uuid.int + other)`;
the converter re-validates the 128-bit range. -/
def ArithUUID.add (u : ArithUUID) (n : Int) : Option ArithUUID :=
  (uuidFromInt ((u.uuid.val : Int) + n)).map (fun w => { u with uuid := w })

/-- `ArithUUID.__sub__(int)`: `attrs.evolve(self, uuid=self.uuid.int - other)`. -/
def ArithUUID.subInt (u : ArithUUID) (n : Int) : Option ArithUUID :=
  (uuidFromInt ((u.uuid.val : Int) - n)).map (fun w => { u with uuid := w })

/-- `ArithUUID.__sub__(ArithUUID)`: the integer distance
`self.uuid.int - other.uuid.int`. -/
def ArithUUID.subPeer (u v : ArithUUID) : Int :=
  (u.uuid.val : Int) - (v.uuid.val : Int)

/-- Claim C4 (amended): whenever `u.int + n` stays inside `[0, 2^128)`,
`(u.add(n)).subtract(u) = n` and `u.add(n).subtract(n) = u` (the result is even
structurally identical to `u`, so Python's uuid-based `__eq__` also holds).
Without the range side condition the claim fails: `add` raises a
`ValueError` (see the counterexample). -/
theorem uuid_add_sub_roundtrip (u : ArithUUID) (n : Int)
    (h1 : 0 ≤ (u.uuid.val : Int) + n) (h2 : (u.uuid.val : Int) + n < (uuidRange : Int)) :
    (ArithUUID.add u n).map (fun w => ArithUUID.subPeer w u) = some n ∧
    (ArithUUID.add u n).bind (fun w => ArithUUID.subInt w n) = some u := by
  obtain ⟨⟨v, hv⟩, lc, uc⟩ := u
  simp only at h1 h2
  have hadd : ArithUUID.add ⟨⟨v, hv⟩, lc, uc⟩ n
      = some ⟨⟨((v : Int) + n).toNat, by omega⟩, lc, uc⟩ := by
    unfold ArithUUID.add uuidFromInt
    rw [dif_pos ⟨h1, h2⟩]
    rfl
  refine ⟨?_, ?_⟩
  · rw [hadd, Option.map_some']
    unfold ArithUUID.subPeer
    congr 1
    simp only
    omega
  · rw [hadd, Option.some_bind]
    unfold ArithUUID.subInt uuidFromInt
    simp only
    have he : ((((v : Int) + n).toNat : Int)) - n = (v : Int) := by omega
    rw [he, dif_pos ⟨by positivity, by exact_mod_cast hv⟩]
    rfl

/-- A concrete zero-valued UUID key. -/
def uuidKeyZero : ArithUUID := ⟨⟨0, by norm_num [uuidRange]⟩, none, none⟩

/-- Claim C4 witness: the add/subtract round trip at the zero key and `n = 5`. -/
theorem uuid_add_sub_roundtrip_witness :
    (ArithUUID.add uuidKeyZero 5).map (fun w => ArithUUID.subPeer w uuidKeyZero) = some 5 ∧
    (ArithUUID.add uuidKeyZero 5).bind (fun w => ArithUUID.subInt w 5) = some uuidKeyZero :=
  uuid_add_sub_roundtrip uuidKeyZero 5 (by decide) (by decide)

/-- Claim C4 counterexample: at the zero key and `n = -1` the sum `-1` leaves
the 128-bit range, `add` raises (`none`), and `(u.add(n)).subtract(u) == n`
therefore fails. -/
theorem uuid_add_sub_cex :
    ArithUUID.add uuidKeyZero (-1) = none ∧
    (ArithUUID.add uuidKeyZero (-1)).map (fun w => ArithUUID.subPeer w uuidKeyZero)
      ≠ some (-1) := by
  refine ⟨rfl, ?_⟩
  rw [show ArithUUID.add uuidKeyZero (-1) = none from rfl]
  simp

/-- Claim C10: constructing a UUID from an out-of-range integer fails
(`uuidFromInt v = none` exactly when `v ∉ [0, 2^128)`), and `add`/`subtract`
on a key succeed with a valid new key exactly when the resulting integer stays
in range (`uuidRange = 2^128`; validity is intrinsic to the `UUID` structure). -/
theorem uuid_range_validation :
    (∀ v : Int, uuidFromInt v = none ↔ ¬(0 ≤ v ∧ v < (uuidRange : Int))) ∧
    (∀ (u : ArithUUID) (n : Int),
      (ArithUUID.add u n).isSome ↔
        (0 ≤ (u.uuid.val : Int) + n ∧ (u.uuid.val : Int) + n < (uuidRange : Int))) ∧
    (∀ (u : ArithUUID) (n : Int),
      (ArithUUID.subInt u n).isSome ↔
        (0 ≤ (u.uuid.val : Int) - n ∧ (u.uuid.val : Int) - n < (uuidRange : Int))) := by
  refine ⟨fun v => ?_, fun u n => ?_, fun u n => ?_⟩
  · unfold uuidFromInt
    split
    · next h => simp [h]
    · next h => simp [h]
  · unfold ArithUUID.add uuidFromInt
    split
    · next h => simp [h]
    · next h => simp [h]
  · unfold ArithUUID.subInt uuidFromInt
    split
    · next h => simp [h]
    · next h =>
      simp [h]
      omega

/-! ## ArithAlphanumeric -/

/-- Python string `<` on code points (lexicographic). -/
def pyStrLt : List Char → List Char → Bool
  | [], [] => false
  | [], _ :: _ => true
  | _ :: _, [] => false
  | a :: as, b :: bs => if a < b then true else if b < a then false else pyStrLt as bs

/-- Python string `<=` on code points (lexicographic). -/
def pyStrLe : List Char → List Char → Bool
  | [], _ => true
  | _ :: _, [] => false
  | a :: as, b :: bs => if a < b then true else if b < a then false else pyStrLe as bs

/-- `ArithAlphanumeric`: the wrapped string `_str` and the optional `_max_len`. -/
structure ArithAlphanumeric where
  str : List Char
  maxLen : Option Nat := none
deriving DecidableEq

/-- `__attrs_post_init__` validation run by the constructor: rejects a string
longer than a truthy `_max_len` (Python's `if self._max_len and len(...) > ...`,
so `None` and `0` both skip the check), then rejects any character outside
`alphanums`.  `none` models the raised `ValueError`. -/
def ArithAlphanumeric.init (s : List Char) (maxLen : Option Nat) : Option ArithAlphanumeric :=
  if maxLen.getD 0 ≠ 0 ∧ maxLen.getD 0 < s.length then none
  else if s.all (fun c => decide (c ∈ alphanums)) then some ⟨s, maxLen⟩ else none

/-- `ArithAlphanumeric.__lt__`: raw string comparison `self._str < other._str`. -/
def ArithAlphanumeric.lt (x y : ArithAlphanumeric) : Bool := pyStrLt x.str y.str

/-- `ArithAlphanumeric.__ge__`: raw string comparison `self._str >= other._str`. -/
def ArithAlphanumeric.ge (x y : ArithAlphanumeric) : Bool := pyStrLe y.str x.str

/-- `ArithAlphanumeric.__eq__`: raw string equality `self._str == other._str`. -/
def ArithAlphanumeric.beq (x y : ArithAlphanumeric) : Bool := x.str == y.str

/-- `justify_alphanums`: right-pad both strings with `' '` (`str.ljust`) to the
common maximum length. -/
def justify_alphanums (s1 s2 : List Char) : List Char × List Char :=
  (s1 ++ List.replicate (max s1.length s2.length - s1.length) ' ',
   s2 ++ List.replicate (max s1.length s2.length - s2.length) ' ')

/-- `alphanums_to_numbers`: justify, then decode both strings. -/
def alphanums_to_numbers (s1 s2 : List Char) : Option (Nat × Nat) :=
  match alphanumToNumber (justify_alphanums s1 s2).1 alphanums,
      alphanumToNumber (justify_alphanums s1 s2).2 alphanums with
  | some n1, some n2 => some (n1, n2)
  | _, _ => none

/-- `ArithAlphanumeric.__sub__(ArithAlphanumeric)`: the integer distance
`n1 - n2` of the aligned, decoded strings. -/
def ArithAlphanumeric.sub (x y : ArithAlphanumeric) : Option Int :=
  (alphanums_to_numbers x.str y.str).map (fun p => (p.1 : Int) - (p.2 : Int))

/-- The two failure modes of alphanumeric `add`: Python's `NotImplementedError`
for an offset other than `1`, and `ValueError` from re-validation. -/
inductive ArithError where
  | notImplemented
  | validation
deriving DecidableEq

/-- `ArithAlphanumeric.__add__(int)`: only `other == 1` is supported; the
incremented value is re-encoded and passed through `self.new`, i.e. the
constructor with the same `_max_len`, whose validation can fail. -/
def ArithAlphanumeric.add (x : ArithAlphanumeric) (other : Int) :
    Except ArithError ArithAlphanumeric :=
  if other ≠ 1 then .error .notImplemented
  else
    match alphanumToNumber x.str alphanums with
    | none => .error .validation
    | some num =>
      match ArithAlphanumeric.init (numberToAlphanum (num + 1) alphanums) x.maxLen with
      | some k => .ok k
      | none => .error .validation

theorem pyStrLe_eq_not_pyStrLt (a b : List Char) : pyStrLe b a = !pyStrLt a b := by
  induction a generalizing b with
  | nil =>
    cases b with
    | nil => rfl
    | cons y ys => rfl
  | cons x xs ih =>
    cases b with
    | nil => rfl
    | cons y ys =>
      simp only [pyStrLt, pyStrLe]
      by_cases h1 : x < y
      · have h2 : ¬y < x := fun hc => absurd (lt_trans h1 hc) (lt_irrefl x)
        simp [h1, h2]
      · by_cases h2 : y < x
        · simp [h1, h2]
        · simp [h1, h2, ih ys]

/-- Claim C6: alphanumeric comparison is lexicographic on the raw, unaligned
strings (`>=` is the negation of `<`, a total order on strings), and it can
disagree with the aligned integer distance: for `a = "a"` and `b = "a "`,
`a < b` holds and `a != b`, yet `a.subtract(b) = 0`. -/
theorem alphanum_compare_vs_distance :
    (∀ x y : ArithAlphanumeric, ArithAlphanumeric.ge x y = !ArithAlphanumeric.lt x y) ∧
    ArithAlphanumeric.lt ⟨['a'], none⟩ ⟨['a', ' '], none⟩ = true ∧
    ArithAlphanumeric.beq ⟨['a'], none⟩ ⟨['a', ' '], none⟩ = false ∧
    ArithAlphanumeric.sub ⟨['a'], none⟩ ⟨['a', ' '], none⟩ = some 0 := by
  refine ⟨fun x y => pyStrLe_eq_not_pyStrLt x.str y.str, by decide, by decide, by decide⟩

/-- Every character emitted by `numberToAlphanum` lies in the alphabet. -/
theorem numberToAlphanum_valid (num : Nat) :
    ∀ c ∈ numberToAlphanum num alphanums, c ∈ alphanums := by
  intro c hc
  unfold numberToAlphanum at hc
  obtain ⟨i, _, rfl⟩ := List.mem_map.mp hc
  rw [List.getD_eq_getElem?_getD]
  by_cases h : i < alphanums.length
  · rw [List.getElem?_eq_getElem h]
    exact List.getElem_mem h
  · rw [List.getElem?_eq_none (by omega)]
    decide

theorem init_some {s : List Char} {ml : Option Nat} {k : ArithAlphanumeric} :
    ArithAlphanumeric.init s ml = some k → k.str = s ∧ k.maxLen = ml := by
  unfold ArithAlphanumeric.init
  split
  · intro h
    exact absurd h (by simp)
  · split
    · intro h
      obtain rfl := (Option.some.inj h).symm
      exact ⟨rfl, rfl⟩
    · intro h
      exact absurd h (by simp)

/-- Claim C7 (amended): alphanumeric `add` with any offset other than `1`
raises an unsupported-operation error; `add 1` yields a key whose numeric
value is one greater with the same `_max_len`, and it succeeds exactly when
the re-encoded string passes the length validation — otherwise it raises a
`ValueError` (see the counterexample).  The UUID variant accepts any integer
offset whose result stays in the 128-bit range. -/
theorem alphanum_add_spec :
    (∀ (x : ArithAlphanumeric) (n : Int), n ≠ 1 →
      ArithAlphanumeric.add x n = .error .notImplemented) ∧
    (∀ (x : ArithAlphanumeric) (v : Nat) (k : ArithAlphanumeric),
      alphanumToNumber x.str alphanums = some v →
      ArithAlphanumeric.add x 1 = .ok k →
      alphanumToNumber k.str alphanums = some (v + 1) ∧ k.maxLen = x.maxLen) ∧
    (∀ (x : ArithAlphanumeric) (v : Nat),
      alphanumToNumber x.str alphanums = some v →
      (x.maxLen.getD 0 = 0 ∨ (numberToAlphanum (v + 1) alphanums).length ≤ x.maxLen.getD 0) →
      ∃ k, ArithAlphanumeric.add x 1 = .ok k) ∧
    (∀ (u : ArithUUID) (n : Int),
      0 ≤ (u.uuid.val : Int) + n → (u.uuid.val : Int) + n < (uuidRange : Int) →
      (ArithUUID.add u n).isSome) := by
  refine ⟨fun x n h => ?_, fun x v k hv hk => ?_, fun x v hv hfit => ?_, fun u n h1 h2 => ?_⟩
  · unfold ArithAlphanumeric.add
    rw [if_pos h]
  · unfold ArithAlphanumeric.add at hk
    rw [if_neg (by simp), hv] at hk
    replace hk : (match ArithAlphanumeric.init (numberToAlphanum (v + 1) alphanums) x.maxLen with
        | some k => Except.ok k
        | none => Except.error ArithError.validation) = Except.ok k := hk
    rcases hinit : ArithAlphanumeric.init (numberToAlphanum (v + 1) alphanums) x.maxLen with
      _ | k'
    · rw [hinit] at hk
      exact absurd hk (by simp)
    · rw [hinit] at hk
      replace hk : (Except.ok k' : Except ArithError ArithAlphanumeric) = Except.ok k := hk
      obtain rfl := (Except.ok.inj hk)
      obtain ⟨hstr, hml⟩ := init_some hinit
      rw [hstr, hml]
      exact ⟨alphanumToNumber_numberToAlphanum (v + 1), rfl⟩
  · unfold ArithAlphanumeric.add
    rw [if_neg (by simp), hv]
    show ∃ k, (match ArithAlphanumeric.init (numberToAlphanum (v + 1) alphanums) x.maxLen with
        | some k => Except.ok k
        | none => Except.error ArithError.validation) = Except.ok k
    unfold ArithAlphanumeric.init
    rw [if_neg (by omega)]
    rw [if_pos (List.all_eq_true.mpr
      (fun c hc => decide_eq_true (numberToAlphanum_valid (v + 1) c hc)))]
    exact ⟨_, rfl⟩
  · unfold ArithUUID.add uuidFromInt
    rw [dif_pos ⟨h1, h2⟩]
    rfl

/-- Claim C7 witness: `add` at concrete keys — offset `5` is rejected, `"a"`
(value 39) increments to `"b"` (value 40) keeping `_max_len`, `add 1` on a
fitting key succeeds, and the UUID variant accepts offset `3`. -/
theorem alphanum_add_spec_witness :
    ArithAlphanumeric.add ⟨['a'], none⟩ 5 = .error .notImplemented ∧
    (alphanumToNumber (ArithAlphanumeric.mk ['b'] none).str alphanums = some 40 ∧
      (ArithAlphanumeric.mk ['b'] none).maxLen = (ArithAlphanumeric.mk ['a'] none).maxLen) ∧
    (∃ k, ArithAlphanumeric.add ⟨['a'], none⟩ 1 = .ok k) ∧
    (ArithUUID.add uuidKeyZero 3).isSome := by
  obtain ⟨h1, h2, h3, h4⟩ := alphanum_add_spec
  exact ⟨h1 ⟨['a'], none⟩ 5 (by decide),
    h2 ⟨['a'], none⟩ 39 ⟨['b'], none⟩ (by decide) (by rfl),
    h3 ⟨['a'], none⟩ 39 (by decide) (Or.inl (by decide)),
    h4 uuidKeyZero 3 (by decide) (by decide)⟩

/-- Claim C7 counterexample: the key `"z"` with `_max_len = 1` is valid
(value 64), but `add 1` re-encodes `65` as the two-character string `"- "`,
which fails the length validation — so `add 1` raises a `ValueError` instead
of returning the incremented key the claim promises. -/
theorem alphanum_add_overflow_cex :
    ArithAlphanumeric.add ⟨['z'], some 1⟩ 1 = .error .validation := by rfl

/-! ## Product-order Vector -/

/-- `safezip`: `zip` after checking that the sequences have equal length;
`none` models the raised `ValueError`. -/
def safezip {α β : Type} (a : List α) (b : List β) : Option (List (α × β)) :=
  if a.length = b.length then some (a.zip b) else none

/-- `Vector.__lt__`: `all(a < b for a, b in safezip(self, other))`. -/
def Vector.lt (a b : List Int) : Option Bool :=
  (safezip a b).map (fun l => l.all (fun p => decide (p.1 < p.2)))

/-- `Vector.__le__`: `all(a <= b for a, b in safezip(self, other))`. -/
def Vector.le (a b : List Int) : Option Bool :=
  (safezip a b).map (fun l => l.all (fun p => decide (p.1 ≤ p.2)))

/-- `Vector.__gt__`: `all(a > b for a, b in safezip(self, other))`. -/
def Vector.gt (a b : List Int) : Option Bool :=
  (safezip a b).map (fun l => l.all (fun p => decide (p.2 < p.1)))

/-- `Vector.__ge__`: `all(a >= b for a, b in safezip(self, other))`. -/
def Vector.ge (a b : List Int) : Option Bool :=
  (safezip a b).map (fun l => l.all (fun p => decide (p.2 ≤ p.1)))

/-- `Vector.__eq__`: `all(a == b for a, b in safezip(self, other))`. -/
def Vector.eqv (a b : List Int) : Option Bool :=
  (safezip a b).map (fun l => l.all (fun p => decide (p.1 = p.2)))

/-- `Vector.__sub__`: component-wise difference over `safezip`. -/
def Vector.sub (a b : List Int) : Option (List Int) :=
  (safezip a b).map (fun l => l.map (fun p => p.1 - p.2))

theorem safezip_map_none {γ : Type} (f : List (Int × Int) → γ) (a b : List Int) :
    (safezip a b).map f = none ↔ a.length ≠ b.length := by
  unfold safezip
  split
  · next h => simp [h]
  · next h => simp [h]

theorem safezip_map_all_true (f : Int × Int → Bool) (a b : List Int) :
    (safezip a b).map (fun l => l.all f) = some true ↔
      (a.length = b.length ∧ ∀ p ∈ a.zip b, f p = true) := by
  unfold safezip
  split
  · next h => simp [h, List.all_eq_true]
  · next h => simp [h]

/-- Claim C8: every `Vector` comparison and subtraction fails (raises) exactly
on arity mismatch, never silently returning `false`; each comparison is the
component-wise conjunction of the scalar relation (shown for `<` and `<=`);
the order is a genuine partial order — `(1,5) < (2,5)` is false while
`(1,5) <= (2,5)` is true, and `(1,5)` and `(2,3)` are incomparable. -/
theorem vector_product_order :
    (∀ a b : List Int, Vector.lt a b = none ↔ a.length ≠ b.length) ∧
    (∀ a b : List Int, Vector.le a b = none ↔ a.length ≠ b.length) ∧
    (∀ a b : List Int, Vector.gt a b = none ↔ a.length ≠ b.length) ∧
    (∀ a b : List Int, Vector.ge a b = none ↔ a.length ≠ b.length) ∧
    (∀ a b : List Int, Vector.eqv a b = none ↔ a.length ≠ b.length) ∧
    (∀ a b : List Int, Vector.sub a b = none ↔ a.length ≠ b.length) ∧
    (∀ a b : List Int, Vector.lt a b = some true ↔
      (a.length = b.length ∧ ∀ p ∈ a.zip b, p.1 < p.2)) ∧
    (∀ a b : List Int, Vector.le a b = some true ↔
      (a.length = b.length ∧ ∀ p ∈ a.zip b, p.1 ≤ p.2)) ∧
    (Vector.lt [1, 5] [2, 5] = some false ∧ Vector.le [1, 5] [2, 5] = some true) ∧
    (Vector.le [1, 5] [2, 3] = some false ∧ Vector.le [2, 3] [1, 5] = some false) := by
  refine ⟨fun a b => safezip_map_none _ a b, fun a b => safezip_map_none _ a b,
    fun a b => safezip_map_none _ a b, fun a b => safezip_map_none _ a b,
    fun a b => safezip_map_none _ a b, fun a b => safezip_map_none _ a b,
    fun a b => ?_, fun a b => ?_, by decide, by decide⟩
  · rw [Vector.lt, safezip_map_all_true]
    simp
  · rw [Vector.le, safezip_map_all_true]
    simp

/-! ## CaseInsensitiveDict -/

/-- Python `str.lower` (for the ASCII identifiers at issue). -/
def pyLower (s : List Char) : List Char := s.map Char.toLower

/-- The backing `_dict` of `CaseInsensitiveDict`: entries
`(lowered key, (original key, value))` in insertion order. -/
abbrev CIDict (V : Type) := List (List Char × List Char × V)

/-- Python `dict` lookup on the lowered key. -/
def CaseInsensitiveDict.find {V : Type} : CIDict V → List Char → Option (List Char × V)
  | [], _ => none
  | (k', p) :: rest, k => if k' = k then some p else CaseInsensitiveDict.find rest k

/-- Python `dict` store: replace in place if the key exists, else append. -/
def CaseInsensitiveDict.store {V : Type} :
    CIDict V → List Char → List Char × V → CIDict V
  | [], k, p => [(k, p)]
  | (k', p') :: rest, k, p =>
    if k' = k then (k, p) :: rest else (k', p') :: CaseInsensitiveDict.store rest k p

/-- `CaseInsensitiveDict.__setitem__`: lower the key; if already present, keep
the previously stored original casing; store `(key, value)` under the lowered
key. -/
def CaseInsensitiveDict.setItem {V : Type} (d : CIDict V) (key : List Char) (v : V) :
    CIDict V :=
  let k := pyLower key
  let key' := match CaseInsensitiveDict.find d k with
    | some (orig, _) => orig
    | none => key
  CaseInsensitiveDict.store d k (key', v)

/-- `CaseInsensitiveDict.__getitem__`: `self._dict[key.lower()][1]`;
`none` models the `KeyError`. -/
def CaseInsensitiveDict.getItem {V : Type} (d : CIDict V) (key : List Char) : Option V :=
  (CaseInsensitiveDict.find d (pyLower key)).map Prod.snd

/-- `CaseInsensitiveDict.get_key`: `self._dict[key.lower()][0]`. -/
def CaseInsensitiveDict.get_key {V : Type} (d : CIDict V) (key : List Char) :
    Option (List Char) :=
  (CaseInsensitiveDict.find d (pyLower key)).map Prod.fst

/-- The map after inserting `"Name" ↦ 1` into an empty dict. -/
def nameMapD1 : CIDict Nat := CaseInsensitiveDict.setItem [] "Name".toList 1

/-- `nameMapD1` after re-inserting under the casing `"NAME"` with value `2`. -/
def nameMapD2 : CIDict Nat := CaseInsensitiveDict.setItem nameMapD1 "NAME".toList 2

/-- Claim C9: after inserting `"Name" ↦ 1`, lookup succeeds for every casing
of `"name"` (and only for keys lowering to `"name"`), `get_key "NAME"` returns
the first-inserted casing `"Name"`, and after re-inserting under `"NAME"` the
canonical casing is still `"Name"` while the value is updated. -/
theorem case_insensitive_dict_spec :
    CaseInsensitiveDict.getItem nameMapD1 "name".toList = some 1 ∧
    CaseInsensitiveDict.getItem nameMapD1 "NAME".toList = some 1 ∧
    CaseInsensitiveDict.get_key nameMapD1 "NAME".toList = some "Name".toList ∧
    (∀ s : List Char,
      CaseInsensitiveDict.getItem nameMapD1 s = some 1 ↔ pyLower s = "name".toList) ∧
    CaseInsensitiveDict.get_key nameMapD2 "nAmE".toList = some "Name".toList ∧
    CaseInsensitiveDict.getItem nameMapD2 "nAmE".toList = some 2 := by
  refine ⟨by decide, by decide, by decide, fun s => ?_, by decide, by decide⟩
  have hd1 : nameMapD1 = [("name".toList, "Name".toList, 1)] := by decide
  rw [hd1]
  unfold CaseInsensitiveDict.getItem CaseInsensitiveDict.find
  rcases eq_or_ne (pyLower s) "name".toList with h | h
  · rw [if_pos h.symm]
    simp [h]
  · rw [if_neg (fun hc => h hc.symm)]
    simp only [CaseInsensitiveDict.find, Option.map_none']
    exact ⟨fun hc => absurd hc (by simp), fun hc => absurd hc h⟩
